import Mathlib

/-!
# gopkg: crash-log singleton and structured log handler

A shallow embedding of `crashlog/crashlog.go` and `pkglog/pkglog.go`.

Package-level variables become fields of an explicit state that every
operation takes and returns.  What the Go runtime and standard library decide
(the clock, the file system, the call stack, the Unicode case tables, the
encoders) is passed in as an environment record, so every statement holds for
all behaviours of that environment.  `filepath.Clean` and `filepath.Join` are
also given as functions, for the separator `/`.  Go strings are modelled by
Lean strings.
-/

set_option autoImplicit false

namespace crashlog

/-! ## Environment of `crashlog` -/

/-- Wall-clock reading as returned by `time.Now()`, in local time. -/
structure Time where
  year : Int
  month : Nat
  day : Nat
  hour : Nat
  minute : Nat
  second : Nat

/-- Decimal digit `d` as a byte: `'0' + d`. -/
def digitChar (d : Nat) : Char := Char.ofNat (48 + d)

/-- Go `time.appendInt`: the decimal form of `x`, left-padded with zeros to
`width` digits (sign excluded), with the two- and four-digit fast paths. -/
def appendInt (x : Int) (width : Nat) : List Char :=
  let sign : List Char := if x < 0 then ['-'] else []
  let u := x.natAbs
  if width = 2 ∧ u < 100 then
    sign ++ [digitChar (u / 10), digitChar (u % 10)]
  else if width = 4 ∧ u < 10000 then
    sign ++ [digitChar (u / 1000), digitChar (u / 100 % 10),
             digitChar (u / 10 % 10), digitChar (u % 10)]
  else
    sign ++ List.replicate (width - (Nat.toDigits 10 u).length) '0' ++ Nat.toDigits 10 u

/-- The value of `t.Format(timeFormat)` for `timeFormat = "20060102_150405"`:
the layout splits into the chunks `2006 01 02`, a literal underscore, and
`15 04 05`. -/
def formatTime (t : Time) : String :=
  String.mk (appendInt t.year 4 ++ appendInt t.month 2 ++ appendInt t.day 2 ++ ['_'] ++
    appendInt t.hour 2 ++ appendInt t.minute 2 ++ appendInt t.second 2)

/-- Everything outside the package that one call of `Initialize` consults. -/
structure OS where
  /-- Result of `pkgutils.ExecPath()`. -/
  execPath : String
  /-- Result of `pkgutils.ExceName()`. -/
  exceName : String
  /-- Result of `time.Now()`. -/
  now : Time
  /-- The function `filepath.Join` on two elements. -/
  join : String → String → String
  /-- Outcome of `os.OpenFile(path, O_APPEND|O_CREATE|O_WRONLY, 0644)`:
  `none` on success, the error text otherwise. -/
  openFile : String → Option String
  /-- Outcome of `debug.SetCrashOutput` on the file opened at the path. -/
  setCrashOutput : String → Option String

/-! ## State of `crashlog` -/

/-- An `*os.File` handle: the name it was opened with and whether `Close` has
already released it. -/
structure File where
  name : String
  closed : Bool
deriving DecidableEq, Repr

/-- Method `(*os.File).Close`: releases an open handle; on a handle that is
already closed it changes nothing and reports `os.ErrClosed`. -/
def File.Close (f : File) : File × Option String :=
  if f.closed then (f, some "file already closed") else ({ f with closed := true }, none)

/-- The package variables `once`, `logFile`, `initErr`, together with two
records of what has been asked of the operating system: the paths handed to
`os.OpenFile`, oldest first, and the file registered as crash output. -/
structure State where
  onceDone : Bool
  logFile : Option File
  initErr : Option String
  opened : List String
  crashOutput : Option String
deriving DecidableEq, Repr

/-- State of a freshly started process. -/
def State.init : State :=
  { onceDone := false, logFile := none, initErr := none, opened := [], crashOutput := none }

/-- The unexported `initialize(crashLogPath)`: open the file, register it as
crash output, close it again when registration fails. -/
def initializeAt (os : OS) (s : State) (crashLogPath : String) : State × Option String :=
  let s1 := { s with opened := s.opened ++ [crashLogPath] }
  match os.openFile crashLogPath with
  | some err =>
      ({ s1 with logFile := none },
        some ("创建崩溃日志文件失败(" ++ crashLogPath ++ "): " ++ err))
  | none =>
      let f : File := { name := crashLogPath, closed := false }
      match os.setCrashOutput crashLogPath with
      | some err =>
          ({ s1 with logFile := some f.Close.1 }, some ("设置崩溃输出失败: " ++ err))
      | none =>
          ({ s1 with logFile := some f, crashOutput := some crashLogPath }, none)

/-- The path computed inside the `once.Do` body of `Initialize`. -/
def crashLogPath (os : OS) (crashLogDirPath crashLogFileName : String)
    (addTimeFormat : Bool) : String :=
  let dir := if crashLogDirPath = "" then os.execPath else crashLogDirPath
  let name := if crashLogFileName = "" then os.exceName else crashLogFileName
  let name := if addTimeFormat then name ++ "." ++ formatTime os.now else name
  os.join dir ("." ++ name ++ ".crashlog")

/-- `Initialize(crashLogDirPath, crashLogFileName, addTimeFormat)`. -/
def Initialize (os : OS) (s : State) (crashLogDirPath crashLogFileName : String)
    (addTimeFormat : Bool) : State × Option String :=
  if s.onceDone then (s, s.initErr)
  else
    let r := initializeAt os s (crashLogPath os crashLogDirPath crashLogFileName addTimeFormat)
    let s2 := { r.1 with onceDone := true, initErr := r.2 }
    (s2, s2.initErr)

/-- `Close()`: closes `logFile` when it is set, drops the close error and
returns nil. -/
def Close (s : State) : State × Option String :=
  match s.logFile with
  | some f => ({ s with logFile := some f.Close.1 }, none)
  | none => (s, none)

/-- One call of `Initialize`: the environment it runs in and its arguments. -/
structure Call where
  os : OS
  dirPath : String
  fileName : String
  addTimestamp : Bool

/-- A sequence of `Initialize` calls, one after the other: the final state and
the error each call returned, in call order. -/
def runCalls : State → List Call → State × List (Option String)
  | s, [] => (s, [])
  | s, c :: cs =>
      let r := Initialize c.os s c.dirPath c.fileName c.addTimestamp
      let rest := runCalls r.1 cs
      (rest.1, r.2 :: rest.2)

/-! ## Path rules of `path/filepath` with separator `/` -/

/-- The elements of a path: the runs of bytes between separators, empty runs
included. -/
def splitSep : List Char → List (List Char)
  | [] => [[]]
  | c :: cs =>
      if c = '/' then [] :: splitSep cs
      else
        match splitSep cs with
        | [] => [[c]]
        | e :: es => (c :: e) :: es

/-- One round of the loop of `filepath.Clean` on the element `e`, with `out`
the elements kept so far: an empty element and `.` are skipped; `..` removes
the last kept element when there is one to remove, is dropped at the root and
is kept in front of a relative path; any other element is kept. -/
def cleanStep (rooted : Bool) (out : List (List Char)) (e : List Char) : List (List Char) :=
  if e = [] ∨ e = ['.'] then out
  else if e = ['.', '.'] then
    if out ≠ [] ∧ out.getLast? ≠ some ['.', '.'] then out.dropLast
    else if rooted then out
    else out ++ [['.', '.']]
  else out ++ [e]

/-- Kept elements written out with one separator between neighbours. -/
def joinElems : List (List Char) → List Char
  | [] => []
  | [e] => e
  | e :: e2 :: es => e ++ '/' :: joinElems (e2 :: es)

/-- Function `filepath.Clean`: the shortest equivalent path; the empty path
and a relative path with nothing left become `.`. -/
def Clean (path : String) : String :=
  if path = "" then "."
  else
    let rooted : Bool := path.data.head? = some '/'
    let out := (splitSep path.data).foldl (cleanStep rooted) []
    if rooted then String.mk ('/' :: joinElems out)
    else if out = [] then "."
    else String.mk (joinElems out)

/-- Function `filepath.Join` on two elements: the elements from the first
non-empty one on, joined by the separator and cleaned; empty when both are
empty. -/
def Join (a b : String) : String :=
  if a ≠ "" then Clean (a ++ "/" ++ b)
  else if b ≠ "" then Clean b
  else ""

/-- Spec side: the path of the entry called `name` directly inside the clean
directory `dir`. -/
def entryIn (dir name : String) : String :=
  if dir = "/" then "/" ++ name
  else if dir = "." then name
  else dir ++ "/" ++ name

/-- The digit a byte stands for. -/
def digitValue (c : Char) : Nat := c.toNat - 48

/-- The number a run of decimal digits stands for. -/
def decimalValue (cs : List Char) : Nat :=
  cs.foldl (fun acc c => 10 * acc + digitValue c) 0

/-- Clock readings `time.Now()` renders with a four-digit year: a calendar
date and time of day in the years 0 to 9999. -/
def Time.valid (t : Time) : Prop :=
  0 ≤ t.year ∧ t.year ≤ 9999 ∧ 1 ≤ t.month ∧ t.month ≤ 12 ∧ 1 ≤ t.day ∧ t.day ≤ 31 ∧
    t.hour ≤ 23 ∧ t.minute ≤ 59 ∧ t.second ≤ 59

/-- An environment with separator `/` in which every open and every
registration succeeds, at 21:05:09 on 2 March 2024. -/
def sampleOS : OS :=
  { execPath := "/opt/app", exceName := "app",
    now := { year := 2024, month := 3, day := 2, hour := 21, minute := 5, second := 9 },
    join := Join,
    openFile := fun _ => none,
    setCrashOutput := fun _ => none }

end crashlog

namespace pkglog

/-! ## Data model of `pkglog` -/

/-- Constant `slog.LevelDebug`. -/
def LevelDebug : Int := -4
/-- Constant `slog.LevelInfo`. -/
def LevelInfo : Int := 0
/-- Constant `slog.LevelWarn`. -/
def LevelWarn : Int := 4
/-- Constant `slog.LevelError`. -/
def LevelError : Int := 8

/-- A value of interface type `slog.Leveler` as stored in
`HandlerOptions.Level`: nil, a constant `slog.Level`, the handler's own
`*slog.LevelVar` (the one `New` allocates as `h.level`), or a `*slog.LevelVar`
owned by the caller and identified by a number. -/
inductive Leveler where
  | nil
  | const (l : Int)
  | own
  | ext (id : Nat)
deriving DecidableEq, Repr

/-- The `ReplaceAttr` field of `slog.HandlerOptions`: nil, the closure `New`
installs (source location rendered as `function:line`), or a closure of the
caller. -/
inductive ReplaceAttr where
  | nil
  | sourceAsFuncLine
  | custom (id : Nat)
deriving DecidableEq, Repr

/-- Type `slog.HandlerOptions`. -/
structure HandlerOptions where
  AddSource : Bool
  Level : Leveler
  ReplaceAttr : ReplaceAttr
deriving DecidableEq, Repr

/-- A byte destination that is not itself a multiplexer: standard output, a
writer of the caller, or a `*lumberjack.Logger`. -/
inductive Dest where
  | stdout
  | user (id : Nat)
  | lumberjack (id : Nat)
deriving DecidableEq, Repr

/-- An `io.Writer`: a plain destination or the result of `io.MultiWriter`. -/
inductive Writer where
  | single (d : Dest)
  | multi (ds : List Dest)
deriving DecidableEq, Repr

/-- The destinations a writer forwards to, in write order. -/
def Writer.dests : Writer → List Dest
  | .single d => [d]
  | .multi ds => ds

/-- Function `io.MultiWriter(a, b)`: arguments that are multiplexers
themselves are flattened into the new one. -/
def MultiWriter (a b : Writer) : Writer := .multi (a.dests ++ b.dests)

/-- Every successful write so far: destination and bytes, oldest first. -/
abbrev WriteLog := List (Dest × String)

/-- The loop of `(*multiWriter).Write`: offer the bytes to each destination
in turn and stop at the first one that fails. -/
def writeAll (accepts : Dest → String → Bool) : List Dest → String → WriteLog →
    WriteLog × Option String
  | [], _, log => (log, none)
  | d :: ds, p, log =>
      if accepts d p then writeAll accepts ds p (log ++ [(d, p)])
      else (log, some "write failed")

/-- Method `Write` of a writer. -/
def Writer.Write (accepts : Dest → String → Bool) (w : Writer) (p : String) (log : WriteLog) :
    WriteLog × Option String :=
  writeAll accepts w.dests p log

/-- The value of an attribute: a string, a `[]string` wrapped by `slog.Any`
(`none` is the nil slice), or anything else. -/
inductive Value where
  | string (s : String)
  | strings (ss : Option (List String))
  | other (id : Nat)
deriving DecidableEq, Repr

/-- Type `slog.Attr`. -/
structure Attr where
  Key : String
  Value : Value
deriving DecidableEq, Repr

/-- Type `slog.Record`, as far as the handler looks at it. -/
structure Record where
  Level : Int
  Message : String
  attrs : List Attr
deriving DecidableEq, Repr

/-- Method `(*slog.Record).AddAttrs`. -/
def Record.AddAttrs (r : Record) (as : List Attr) : Record :=
  { r with attrs := r.attrs ++ as }

/-- A Go value of type `any`, as used for context keys and values: nil, a
plain string, an integer, or a value of a named string type. -/
inductive AnyVal where
  | nil
  | str (s : String)
  | int (i : Int)
  | named (type : String) (s : String)
deriving DecidableEq, Repr

/-- A `context.Context`: the chain of `context.WithValue` pairs, innermost
first. -/
abbrev Context := List (AnyVal × AnyVal)

/-- Method `ctx.Value(key)`: the value of the innermost pair with that key,
nil when there is none. -/
def Context.Value : Context → AnyVal → AnyVal
  | [], _ => .nil
  | (k, v) :: rest, key => if k = key then v else Context.Value rest key

/-- Type `runtime.Frame`, as far as `getStackTrace` reads it. -/
structure Frame where
  Function : String
  Line : Int
deriving DecidableEq, Repr

/-- The two encoders of `log/slog` a handler can be built on. -/
inductive Encoder where
  | json
  | text
deriving DecidableEq, Repr

/-- Everything outside the package that the handler consults. -/
structure Env where
  /-- The function `unicode.ToUpper`. -/
  uni : Char → Char
  /-- Return addresses on the calling goroutine, innermost first. -/
  stack : List Nat
  /-- The frames `runtime.CallersFrames(pcs)` yields, in order. -/
  frames : List Nat → List Frame
  /-- Largest length `make([]uintptr, n)` can allocate. -/
  makeLimit : Nat
  /-- Bytes an encoder produces for a record. -/
  encode : Encoder → HandlerOptions → Record → String
  /-- Whether a destination takes a write in full. -/
  accepts : Dest → String → Bool
  /-- Current values of the level variables owned by the caller. -/
  extLevel : Nat → Int

/-- The embedded `slog.Handler`: the encoder `New` selected and the writer and
options it was given. -/
structure Delegate where
  encoder : Encoder
  w : Writer
  opts : Option HandlerOptions
deriving DecidableEq, Repr

/-- Type `Handler`.  `slogHandler` is the embedded `slog.Handler`, nil until
`New` has selected the encoder; `level` is the value held by `*h.level`;
`warned` lists the arguments of the `slog.Warn` calls made on its behalf. -/
structure Handler where
  slogHandler : Option Delegate
  level : Int
  w : Writer
  opts : Option HandlerOptions
  format : String
  stackTraceSkip : Int
  stackTraceMaxDepth : Int
  warned : List String
deriving DecidableEq, Repr

/-- Function `strings.ToUpper`: a string of ASCII bytes has its letters `a` to
`z` shifted to upper case; any other string is mapped rune by rune through
`unicode.ToUpper`. -/
def ToUpper (uni : Char → Char) (s : String) : String :=
  if s.data.all (fun c => c.toNat < 128) then String.mk (s.data.map Char.toUpper)
  else String.mk (s.data.map uni)

/-- The option constructors of the package, one constructor each. -/
inductive HandlerOption where
  | HandlerWithIoWriter (w : Writer)
  | HandlerWithFormat (format : String)
  | HandlerWithLevel (level : Int)
  | HandlerWithStrLevel (level : String)
  | HandlerWithHandlerOptions (opts : Option HandlerOptions)
  | HandlerWithStackTrace (skip maxDepth : Int)
  | HandlerWithLumberjack (lumberjackLog : Nat)
deriving DecidableEq, Repr

open HandlerOption

/-- The closure an option constructor returns, run on a handler. -/
def HandlerOption.apply (uni : Char → Char) : HandlerOption → Handler → Handler
  | HandlerWithIoWriter w, h => { h with w := w }
  | HandlerWithFormat format, h => { h with format := format }
  | HandlerWithLevel level, h => { h with level := level }
  | HandlerWithStrLevel level, h =>
      let u := ToUpper uni level
      if u = "DEBUG" then { h with level := LevelDebug }
      else if u = "INFO" then { h with level := LevelInfo }
      else if u = "WARN" ∨ u = "WARNING" then { h with level := LevelWarn }
      else if u = "ERROR" then { h with level := LevelError }
      else { h with warned := h.warned ++ [level], level := LevelInfo }
  | HandlerWithHandlerOptions opts, h => { h with opts := opts }
  | HandlerWithStackTrace skip maxDepth, h =>
      { h with stackTraceSkip := skip, stackTraceMaxDepth := maxDepth }
  | HandlerWithLumberjack lumberjackLog, h =>
      { h with w := MultiWriter h.w (.single (.lumberjack lumberjackLog)) }

/-- The handler `New` starts from, before any option has run. -/
def defaultHandler : Handler :=
  { slogHandler := none,
    level := LevelInfo,
    w := .single .stdout,
    opts := some { AddSource := true, Level := .own, ReplaceAttr := .sourceAsFuncLine },
    format := "",
    stackTraceSkip := 4,
    stackTraceMaxDepth := 3,
    warned := [] }

/-- The `for _, opt := range opts` loop of `New`. -/
def applyAll (uni : Char → Char) (opts : List HandlerOption) (h : Handler) : Handler :=
  opts.foldl (fun acc opt => opt.apply uni acc) h

/-- Function `New(opts...)`. -/
def New (env : Env) (opts : List HandlerOption) : Handler :=
  let h := applyAll env.uni opts defaultHandler
  let u := ToUpper env.uni h.format
  let encoder : Encoder :=
    if u = "JSON" then .json
    else if u = "TEXT" then .text
    else .text
  { h with slogHandler := some { encoder := encoder, w := h.w, opts := h.opts } }

/-- Method `(*Handler).SetLevel`. -/
def Handler.SetLevel (h : Handler) (level : Int) : Handler :=
  { h with level := level }

/-- Function `getTraceID`. -/
def getTraceID (ctx : Context) : String :=
  match Context.Value ctx (.str "traceId") with
  | .str traceID => traceID
  | _ => ""

/-- Function `runtime.Callers(skip, pcs)` on a buffer of `len` entries: the
addresses left after skipping, cut to the buffer. -/
def Callers (env : Env) (skip : Int) (len : Nat) : List Nat :=
  (env.stack.drop skip.toNat).take len

/-- Rendering of one frame: `frame.Function + ":" + strconv.Itoa(frame.Line)`. -/
def Frame.render (f : Frame) : String := f.Function ++ ":" ++ toString f.Line

/-- The `for` loop of `getStackTrace` over the frame iterator.  `Next` on an
exhausted iterator yields the zero frame and `more = false`. -/
def collectFrames (maxDepth : Int) : List Frame → List String → List String
  | [], stack => stack ++ [Frame.render { Function := "", Line := 0 }]
  | frame :: rest, stack =>
      let stack := stack ++ [frame.render]
      if rest.isEmpty ∨ maxDepth ≤ (stack.length : Int) then stack
      else collectFrames maxDepth rest stack

/-- Function `getStackTrace(skip, maxDepth)`.  The outer `none` is the panic
of `make` on a length it cannot allocate, the inner `none` the nil slice. -/
def getStackTrace (env : Env) (skip maxDepth : Int) : Option (Option (List String)) :=
  if maxDepth < 0 ∨ (env.makeLimit : Int) < maxDepth then none
  else
    let pcs := Callers env skip maxDepth.toNat
    if pcs.length = 0 then some none
    else some (some (collectFrames maxDepth (env.frames pcs) []))

/-- Method `Handle` of the embedded encoder: encode the record and write the
bytes to the writer in one call. -/
def Delegate.Handle (d : Delegate) (env : Env) (r : Record) (log : WriteLog) :
    WriteLog × Option String :=
  d.w.Write env.accepts
    (env.encode d.encoder (d.opts.getD { AddSource := false, Level := .nil, ReplaceAttr := .nil }) r)
    log

/-- Method `Enabled` of the embedded encoder: the level is compared with
`opts.Level`, or with Info when that is nil.  `own` is the current value of
the handler's level variable. -/
def Delegate.Enabled (d : Delegate) (env : Env) (own : Int) (level : Int) : Bool :=
  let minLevel : Int :=
    match d.opts with
    | none => LevelInfo
    | some o =>
        match o.Level with
        | .nil => LevelInfo
        | .const l => l
        | .own => own
        | .ext id => env.extLevel id
  decide (minLevel ≤ level)

/-- Method `(*Handler).Handle(ctx, r)`.  Returns the record handed to the
embedded encoder, the write log after it and the error it reported; `none` is
a panic. -/
def Handler.Handle (h : Handler) (env : Env) (ctx : Context) (r : Record) (log : WriteLog) :
    Option (Record × WriteLog × Option String) :=
  let traceId := getTraceID ctx
  let r1 := if traceId ≠ "" then r.AddAttrs [{ Key := "traceId", Value := .string traceId }] else r
  let r2 : Option Record :=
    if r1.Level = LevelError then
      (getStackTrace env h.stackTraceSkip h.stackTraceMaxDepth).map
        (fun st => r1.AddAttrs [{ Key := "stack", Value := .strings st }])
    else some r1
  match r2, h.slogHandler with
  | some r2, some d => some (r2, d.Handle env r2 log)
  | _, _ => none

/-- Method `Enabled`, promoted from the embedded encoder; `none` is the panic
of calling it on a nil embedded handler. -/
def Handler.Enabled (h : Handler) (env : Env) (level : Int) : Option Bool :=
  h.slogHandler.map (fun d => d.Enabled env h.level level)

/-- What becomes of one record logged through `slog.New(h)`. -/
inductive Outcome where
  | dropped
  | panicked
  | handled (r : Record) (log : WriteLog) (err : Option String)
deriving DecidableEq, Repr

/-- Method `(*slog.Logger).log` on a logger over `h`: a record the handler is
not enabled for is dropped; any other goes to `Handle`. -/
def loggerLog (h : Handler) (env : Env) (ctx : Context) (r : Record) (log : WriteLog) : Outcome :=
  match h.Enabled env r.Level with
  | none => .panicked
  | some false => .dropped
  | some true =>
      match h.Handle env ctx r log with
      | none => .panicked
      | some (r2, log2, err) => .handled r2 log2 err

/-- The write log once the outcome of a record is known, given the log
before it: only a handled record changes the log. -/
def Outcome.logAfter : Outcome → WriteLog → WriteLog
  | .handled _ log _, _ => log
  | .dropped, before => before
  | .panicked, before => before

/-- An environment for examples: three addresses on the stack, each one frame,
every write accepted. -/
def sampleEnv : Env :=
  { uni := Char.toUpper,
    stack := [10, 20, 30],
    frames := fun pcs => pcs.map (fun pc => { Function := "main.f", Line := (pc : Int) }),
    makeLimit := 1000,
    encode := fun _ _ r => r.Message,
    accepts := fun _ _ => true,
    extLevel := fun _ => 0 }

end pkglog

namespace crashlog

/-! ## Theorems on `crashlog` -/

theorem Initialize_done (os : OS) (s : State) (d n : String) (b : Bool)
    (h : s.onceDone = true) : Initialize os s d n b = (s, s.initErr) := by
  simp [Initialize, h]

theorem Initialize_sets_done (os : OS) (s : State) (d n : String) (b : Bool) :
    (Initialize os s d n b).1.onceDone = true := by
  unfold Initialize
  split
  · assumption
  · rfl

theorem Initialize_returns_initErr (os : OS) (s : State) (d n : String) (b : Bool) :
    (Initialize os s d n b).2 = (Initialize os s d n b).1.initErr := by
  unfold Initialize
  split <;> rfl

theorem runCalls_done (s : State) (h : s.onceDone = true) (cs : List Call) :
    runCalls s cs = (s, List.replicate cs.length s.initErr) := by
  induction cs with
  | nil => rfl
  | cons c cs ih =>
      simp only [runCalls, Initialize_done c.os s c.dirPath c.fileName c.addTimestamp h, ih,
        List.length_cons, List.replicate_succ]

theorem initializeAt_opened (os : OS) (s : State) (p : String) :
    (initializeAt os s p).1.opened = s.opened ++ [p] := by
  unfold initializeAt
  cases os.openFile p with
  | some e => rfl
  | none =>
      cases os.setCrashOutput p with
      | some e => rfl
      | none => rfl

theorem Initialize_init_opened (os : OS) (d n : String) (b : Bool) :
    (Initialize os State.init d n b).1.opened = [crashLogPath os d n b] := by
  simp [Initialize, State.init, initializeAt_opened]

/-- C1: in any sequence of `Initialize` calls on a fresh process, with any
arguments and any environment per call, the state after the whole sequence is
the state the first call left, every call returns the error the first call
returned, and the only path ever handed to `os.OpenFile` is the one computed
from the first call's arguments. -/
theorem Initialize_exactly_once (first : Call) (rest : List Call) :
    (runCalls State.init (first :: rest)).1
        = (Initialize first.os State.init first.dirPath first.fileName first.addTimestamp).1
      ∧ (runCalls State.init (first :: rest)).2
        = List.replicate (rest.length + 1)
            (Initialize first.os State.init first.dirPath first.fileName first.addTimestamp).2
      ∧ (runCalls State.init (first :: rest)).1.opened
        = [crashLogPath first.os first.dirPath first.fileName first.addTimestamp] := by
  have hd := Initialize_sets_done first.os State.init first.dirPath first.fileName
    first.addTimestamp
  have he := Initialize_returns_initErr first.os State.init first.dirPath first.fileName
    first.addTimestamp
  have ho := Initialize_init_opened first.os first.dirPath first.fileName first.addTimestamp
  simp only [runCalls, runCalls_done _ hd rest, List.replicate_succ, he, ho]
  exact ⟨trivial, trivial, trivial⟩

theorem digitChar_isDigit (d : Nat) (h : d < 10) : (digitChar d).isDigit = true := by
  interval_cases d <;> decide

theorem appendInt_two (n : Nat) (h : n < 100) :
    appendInt (n : Int) 2 = [digitChar (n / 10), digitChar (n % 10)] := by
  simp [appendInt, h]

theorem appendInt_four (y : Int) (h0 : 0 ≤ y) (h1 : y ≤ 9999) :
    appendInt y 4 = [digitChar (y.natAbs / 1000), digitChar (y.natAbs / 100 % 10),
      digitChar (y.natAbs / 10 % 10), digitChar (y.natAbs % 10)] := by
  have hu : y.natAbs < 10000 := by omega
  have hs : ¬ y < 0 := by omega
  simp [appendInt, hu, hs]

theorem splitSep_ne_nil (l : List Char) : splitSep l ≠ [] := by
  cases l with
  | nil => simp [splitSep]
  | cons c cs =>
      simp only [splitSep]
      split
      · simp
      · split <;> simp

theorem splitSep_append (a b : List Char) :
    splitSep (a ++ '/' :: b) = splitSep a ++ splitSep b := by
  induction a with
  | nil => simp [splitSep]
  | cons c cs ih =>
      by_cases hc : c = '/'
      · simp [splitSep, hc, ih]
      · simp only [List.cons_append, splitSep, hc, if_false]
        simp only [List.append_eq, ih]
        cases hs : splitSep cs with
        | nil => exact absurd hs (splitSep_ne_nil cs)
        | cons e es => simp

theorem splitSep_of_no_sep (b : List Char) (h : '/' ∉ b) : splitSep b = [b] := by
  induction b with
  | nil => rfl
  | cons c cs ih =>
      have hc : c ≠ '/' := fun h2 => h (by simp [h2])
      have hcs : '/' ∉ cs := fun h2 => h (List.mem_cons_of_mem _ h2)
      simp [splitSep, hc, ih hcs]

theorem splitSep_no_sep (l : List Char) : ∀ e ∈ splitSep l, '/' ∉ e := by
  induction l with
  | nil => simp [splitSep]
  | cons c cs ih =>
      by_cases hc : c = '/'
      · simp only [splitSep, hc, if_true]
        intro e he
        simp only [List.mem_cons] at he
        rcases he with he | he
        · simp [he]
        · exact ih e he
      · simp only [splitSep, hc, if_false]
        cases hs : splitSep cs with
        | nil => exact absurd hs (splitSep_ne_nil cs)
        | cons e es =>
            rw [hs] at ih
            intro x hx
            simp only [List.mem_cons] at hx
            rcases hx with hx | hx
            · subst hx
              have h1 := ih e (List.mem_cons_self _ _)
              simp only [List.mem_cons, not_or]
              exact ⟨fun h2 => hc h2.symm, h1⟩
            · exact ih x (List.mem_cons_of_mem _ hx)

theorem cleanStep_keeps (rooted : Bool) (out : List (List Char)) (e : List Char)
    (hout : ∀ x ∈ out, x ≠ [] ∧ x ≠ ['.'] ∧ '/' ∉ x) (he : '/' ∉ e) :
    ∀ x ∈ cleanStep rooted out e, x ≠ [] ∧ x ≠ ['.'] ∧ '/' ∉ x := by
  unfold cleanStep
  split
  · exact hout
  · rename_i h1
    split
    · split
      · intro x hx
        exact hout x (List.mem_of_mem_dropLast hx)
      · split
        · exact hout
        · intro x hx
          simp only [List.mem_append, List.mem_singleton] at hx
          rcases hx with hx | hx
          · exact hout x hx
          · subst hx
            decide
    · intro x hx
      simp only [List.mem_append, List.mem_singleton] at hx
      rcases hx with hx | hx
      · exact hout x hx
      · subst hx
        simp only [not_or] at h1
        exact ⟨h1.1, h1.2, he⟩

theorem foldl_cleanStep_keeps (rooted : Bool) (es : List (List Char)) (out : List (List Char))
    (hout : ∀ x ∈ out, x ≠ [] ∧ x ≠ ['.'] ∧ '/' ∉ x) (hes : ∀ e ∈ es, '/' ∉ e) :
    ∀ x ∈ es.foldl (cleanStep rooted) out, x ≠ [] ∧ x ≠ ['.'] ∧ '/' ∉ x := by
  induction es generalizing out with
  | nil => exact hout
  | cons e es ih =>
      simp only [List.foldl_cons]
      exact ih _ (cleanStep_keeps rooted out e hout (hes e (List.mem_cons_self _ _)))
        (fun e2 h2 => hes e2 (List.mem_cons_of_mem _ h2))

theorem joinElems_concat (out : List (List Char)) (n : List Char) :
    joinElems (out ++ [n]) = if out = [] then n else joinElems out ++ '/' :: n := by
  induction out with
  | nil => rfl
  | cons e es ih =>
      cases es with
      | nil => simp [joinElems]
      | cons e2 es2 =>
          have ih2 : joinElems (e2 :: (es2 ++ [n])) = joinElems (e2 :: es2) ++ '/' :: n := by
            simpa using ih
          show e ++ '/' :: joinElems (e2 :: (es2 ++ [n])) = _
          rw [ih2]
          simp [joinElems]

theorem joinElems_shape (out : List (List Char)) (hne : out ≠ [])
    (hout : ∀ x ∈ out, x ≠ [] ∧ x ≠ ['.'] ∧ '/' ∉ x) :
    joinElems out ≠ [] ∧ joinElems out ≠ ['/'] ∧ joinElems out ≠ ['.'] := by
  cases out with
  | nil => exact absurd rfl hne
  | cons e es =>
      have he := hout e (List.mem_cons_self _ _)
      cases es with
      | nil =>
          simp only [joinElems]
          refine ⟨he.1, ?_, he.2.1⟩
          intro h
          exact he.2.2 (by simp [h])
      | cons e2 es2 =>
          simp only [joinElems]
          have hl : 2 ≤ (e ++ '/' :: joinElems (e2 :: es2)).length := by
            have : 1 ≤ e.length := List.length_pos.mpr he.1
            simp only [List.length_append, List.length_cons]
            omega
          refine ⟨?_, ?_, ?_⟩ <;> intro h <;> rw [h] at hl <;> simp at hl


theorem Join_entryIn (dir n : String) (hd : dir ≠ "") (hsep : '/' ∉ n.data)
    (h1 : n.data ≠ []) (h2 : n.data ≠ ['.']) (h3 : n.data ≠ ['.', '.']) :
    Join dir n = entryIn (Clean dir) n := by
  have hP : dir.data ≠ [] := fun h => hd (String.ext h)
  have hpath : dir ++ "/" ++ n ≠ "" := by
    intro h
    have h4 := congrArg String.data h
    simp [String.data_append] at h4
  have hdata : (dir ++ "/" ++ n).data = dir.data ++ '/' :: n.data := by
    simp [String.data_append]
  have hhead : (dir.data ++ '/' :: n.data).head? = dir.data.head? := by
    obtain ⟨c, cs, hc⟩ := List.exists_cons_of_ne_nil hP
    rw [hc]
    rfl
  have hfold : ∀ rooted : Bool,
      (splitSep (dir.data ++ '/' :: n.data)).foldl (cleanStep rooted) []
        = (splitSep dir.data).foldl (cleanStep rooted) [] ++ [n.data] := by
    intro rooted
    rw [splitSep_append, splitSep_of_no_sep _ hsep, List.foldl_append]
    simp [cleanStep, h1, h2, h3]
  have hkeep : ∀ rooted : Bool, ∀ x ∈ (splitSep dir.data).foldl (cleanStep rooted) [],
      x ≠ [] ∧ x ≠ ['.'] ∧ '/' ∉ x := fun rooted =>
    foldl_cleanStep_keeps rooted (splitSep dir.data) [] (by simp) (splitSep_no_sep _)
  unfold Join
  rw [if_pos hd]
  simp only [Clean, hpath, hd, if_false, hdata, hhead, hfold]
  generalize hr : decide (dir.data.head? = some '/') = rooted
  generalize hS : (splitSep dir.data).foldl (cleanStep rooted) [] = out
  have hk := hkeep rooted
  rw [hS] at hk
  rw [joinElems_concat]
  cases rooted with
  | true =>
      by_cases ho : out = []
      · subst ho
        simp only [if_true, joinElems]
        rfl
      · obtain ⟨k1, _, _⟩ := joinElems_shape out ho hk
        have e1 : String.mk ('/' :: joinElems out) ≠ "/" := by
          intro h
          have h4 := congrArg String.data h
          simp at h4
          exact k1 h4
        have e2 : String.mk ('/' :: joinElems out) ≠ "." := by
          intro h
          have h4 := congrArg String.data h
          simp at h4
        simp only [ho, if_false, if_true, entryIn, e1, e2]
        apply String.ext
        simp [String.data_append]
  | false =>
      by_cases ho : out = []
      · subst ho
        simp only [if_true, entryIn]
        simp
      · obtain ⟨_, k2, k3⟩ := joinElems_shape out ho hk
        have e1 : String.mk (joinElems out) ≠ "/" := by
          intro h
          exact k2 (congrArg String.data h)
        have e2 : String.mk (joinElems out) ≠ "." := by
          intro h
          exact k3 (congrArg String.data h)
        simp only [ho, if_false, entryIn, Bool.false_eq_true]
        rw [if_neg e1, if_neg e2]
        apply String.ext
        simp [String.data_append]

theorem digitValue_digitChar (d : Nat) (h : d < 10) : digitValue (digitChar d) = d := by
  interval_cases d <;> decide

/-- The stamp of a valid clock reading: eight digits that read year, month
and day, an underscore, six digits that read hour, minute and second. -/
theorem formatTime_pattern (t : Time) (ht : t.valid) :
    ∃ d1 d2 : List Char, (formatTime t).data = d1 ++ '_' :: d2
      ∧ d1.length = 8 ∧ d2.length = 6
      ∧ (∀ c ∈ d1, c.isDigit = true) ∧ (∀ c ∈ d2, c.isDigit = true)
      ∧ (decimalValue d1 : Int) = t.year * 10000 + t.month * 100 + t.day
      ∧ decimalValue d2 = t.hour * 10000 + t.minute * 100 + t.second := by
  obtain ⟨hy0, hy1, _, hmo, _, hd, hh, hmi, hs⟩ := ht
  have hu : t.year.natAbs < 10000 := by omega
  refine ⟨appendInt t.year 4 ++ appendInt t.month 2 ++ appendInt t.day 2,
    appendInt t.hour 2 ++ appendInt t.minute 2 ++ appendInt t.second 2, ?_, ?_, ?_, ?_, ?_, ?_, ?_⟩
  · simp [formatTime, List.append_assoc]
  · rw [appendInt_four _ hy0 hy1, appendInt_two _ (by omega), appendInt_two _ (by omega)]
    rfl
  · rw [appendInt_two _ (by omega), appendInt_two _ (by omega), appendInt_two _ (by omega)]
    rfl
  · rw [appendInt_four _ hy0 hy1, appendInt_two _ (by omega), appendInt_two _ (by omega)]
    intro c hc
    simp only [List.cons_append, List.nil_append, List.mem_cons, List.mem_singleton,
      List.not_mem_nil, or_false] at hc
    rcases hc with h | h | h | h | h | h | h | h <;> subst h <;>
      apply digitChar_isDigit <;> omega
  · rw [appendInt_two _ (by omega), appendInt_two _ (by omega), appendInt_two _ (by omega)]
    intro c hc
    simp only [List.cons_append, List.nil_append, List.mem_cons, List.mem_singleton,
      List.not_mem_nil, or_false] at hc
    rcases hc with h | h | h | h | h | h <;> subst h <;>
      apply digitChar_isDigit <;> omega
  · rw [appendInt_four _ hy0 hy1, appendInt_two _ (by omega), appendInt_two _ (by omega)]
    have a1 := digitValue_digitChar (t.year.natAbs / 1000) (by omega)
    have a2 := digitValue_digitChar (t.year.natAbs / 100 % 10) (by omega)
    have a3 := digitValue_digitChar (t.year.natAbs / 10 % 10) (by omega)
    have a4 := digitValue_digitChar (t.year.natAbs % 10) (by omega)
    have a5 := digitValue_digitChar (t.month / 10) (by omega)
    have a6 := digitValue_digitChar (t.month % 10) (by omega)
    have a7 := digitValue_digitChar (t.day / 10) (by omega)
    have a8 := digitValue_digitChar (t.day % 10) (by omega)
    simp only [decimalValue, List.cons_append, List.nil_append, List.foldl_cons, List.foldl_nil,
      a1, a2, a3, a4, a5, a6, a7, a8]
    omega
  · rw [appendInt_two _ (by omega), appendInt_two _ (by omega), appendInt_two _ (by omega)]
    have a1 := digitValue_digitChar (t.hour / 10) (by omega)
    have a2 := digitValue_digitChar (t.hour % 10) (by omega)
    have a3 := digitValue_digitChar (t.minute / 10) (by omega)
    have a4 := digitValue_digitChar (t.minute % 10) (by omega)
    have a5 := digitValue_digitChar (t.second / 10) (by omega)
    have a6 := digitValue_digitChar (t.second % 10) (by omega)
    simp only [decimalValue, List.cons_append, List.nil_append, List.foldl_cons, List.foldl_nil,
      a1, a2, a3, a4, a5, a6]
    omega

theorem crashName_plain (x : String) (h : '/' ∉ x.data) :
    '/' ∉ ("." ++ x ++ ".crashlog").data ∧ ("." ++ x ++ ".crashlog").data ≠ []
      ∧ ("." ++ x ++ ".crashlog").data ≠ ['.'] ∧ ("." ++ x ++ ".crashlog").data ≠ ['.', '.'] := by
  have hdata : ("." ++ x ++ ".crashlog").data = '.' :: (x.data ++ ".crashlog".data) := by
    simp [String.data_append]
  have hlen : 10 ≤ ("." ++ x ++ ".crashlog").data.length := by
    rw [hdata]
    simp only [List.length_cons, List.length_append]
    have : ".crashlog".data.length = 9 := by decide
    omega
  refine ⟨?_, ?_, ?_, ?_⟩
  · rw [hdata]
    simp only [List.mem_cons, List.mem_append, not_or]
    exact ⟨by decide, h, by decide⟩
  · intro h2
    rw [h2] at hlen
    simp at hlen
  · intro h2
    rw [h2] at hlen
    simp at hlen
  · intro h2
    rw [h2] at hlen
    simp at hlen

/-- C2, counterexample: with directory `/var/log/deep` and file name
`/../../x`, both non-empty, the file opened is `/var/x.crashlog`: it is not
inside the directory and its name has no leading dot. -/
theorem Initialize_file_name_escapes_dir :
    "/var/log/deep" ≠ "" ∧ "/../../x" ≠ ""
      ∧ (Initialize sampleOS State.init "/var/log/deep" "/../../x" false).1.opened
        = ["/var/x.crashlog"]
      ∧ ¬ ("/var/log/deep/".data <+: "/var/x.crashlog".data) := by
  decide

/-- C2, amended: with separator `/`, for non-empty `dirPath` and a non-empty
`fileName` without a separator, the one file the first `Initialize` opens is
the entry `.<fileName>.crashlog` of the cleaned `dirPath` without a
timestamp; with one, and a clock reading in the years 0 to 9999, it is the
entry `.<fileName>.<stamp>.crashlog` there, where the stamp is eight digits
reading the clock's year, month and day, an underscore, and six digits
reading its hour, minute and second. -/
theorem Initialize_file_name (os : OS) (dirPath fileName : String)
    (hjoin : os.join = Join) (hdir : dirPath ≠ "") (hname : fileName ≠ "")
    (hsep : '/' ∉ fileName.data) :
    (Initialize os State.init dirPath fileName false).1.opened
        = [entryIn (Clean dirPath) ("." ++ fileName ++ ".crashlog")]
      ∧ (os.now.valid →
          (Initialize os State.init dirPath fileName true).1.opened
              = [entryIn (Clean dirPath)
                  ("." ++ (fileName ++ "." ++ formatTime os.now) ++ ".crashlog")]
            ∧ ∃ d1 d2 : List Char, (formatTime os.now).data = d1 ++ '_' :: d2
                ∧ d1.length = 8 ∧ d2.length = 6
                ∧ (∀ c ∈ d1, c.isDigit = true) ∧ (∀ c ∈ d2, c.isDigit = true)
                ∧ (decimalValue d1 : Int)
                    = os.now.year * 10000 + os.now.month * 100 + os.now.day
                ∧ decimalValue d2
                    = os.now.hour * 10000 + os.now.minute * 100 + os.now.second) := by
  refine ⟨?_, ?_⟩
  · obtain ⟨k1, k2, k3, k4⟩ := crashName_plain fileName hsep
    rw [Initialize_init_opened]
    simp only [crashLogPath, hdir, hname, if_false, hjoin, Bool.false_eq_true]
    rw [Join_entryIn dirPath _ hdir k1 k2 k3 k4]
  · intro hclock
    have hpat := formatTime_pattern os.now hclock
    refine ⟨?_, hpat⟩
    obtain ⟨d1, d2, hdata, _, _, hd1, hd2, _, _⟩ := hpat
    have hstamp : '/' ∉ (fileName ++ "." ++ formatTime os.now).data := by
      simp only [String.data_append, hdata, List.mem_append, List.mem_cons, not_or]
      refine ⟨⟨hsep, by decide⟩, ?_, by decide, ?_⟩
      · intro h
        have := hd1 _ h
        revert this
        decide
      · intro h
        have := hd2 _ h
        revert this
        decide
    obtain ⟨k1, k2, k3, k4⟩ := crashName_plain _ hstamp
    rw [Initialize_init_opened]
    simp only [crashLogPath, hdir, hname, if_false, if_true, hjoin]
    rw [Join_entryIn dirPath _ hdir k1 k2 k3 k4]

/-- Witness of C2 (amended) at directory `/var/log`, name `svc`, 2 March 2024
21:05:09: the files are `/var/log/.svc.crashlog` and
`/var/log/.svc.20240302_210509.crashlog`. -/
theorem Initialize_file_name_witness :
    (Initialize sampleOS State.init "/var/log" "svc" false).1.opened
        = ["/var/log/.svc.crashlog"]
      ∧ (Initialize sampleOS State.init "/var/log" "svc" true).1.opened
        = ["/var/log/.svc.20240302_210509.crashlog"]
      ∧ ∃ d1 d2 : List Char, (formatTime sampleOS.now).data = d1 ++ '_' :: d2
          ∧ d1.length = 8 ∧ d2.length = 6
          ∧ (∀ c ∈ d1, c.isDigit = true) ∧ (∀ c ∈ d2, c.isDigit = true)
          ∧ (decimalValue d1 : Int)
              = sampleOS.now.year * 10000 + sampleOS.now.month * 100 + sampleOS.now.day
          ∧ decimalValue d2
              = sampleOS.now.hour * 10000 + sampleOS.now.minute * 100 + sampleOS.now.second :=
  ⟨(Initialize_file_name sampleOS "/var/log" "svc" rfl (by decide) (by decide) (by decide)).1,
    ((Initialize_file_name sampleOS "/var/log" "svc" rfl (by decide) (by decide) (by decide)).2
      (by simp [Time.valid, sampleOS])).1,
    ((Initialize_file_name sampleOS "/var/log" "svc" rfl (by decide) (by decide) (by decide)).2
      (by simp [Time.valid, sampleOS])).2⟩

/-- C3: `Close` on a fresh process returns nil and changes nothing; after an
`Initialize` that succeeded the file is open, the first `Close` returns nil and
leaves it closed, and a second `Close` returns nil and changes nothing. -/
theorem Close_before_and_after_Initialize (os : OS) (dirPath fileName : String)
    (addTimestamp : Bool)
    (hok : (Initialize os State.init dirPath fileName addTimestamp).2 = none) :
    Close State.init = (State.init, none)
      ∧ (Initialize os State.init dirPath fileName addTimestamp).1.logFile
          = some { name := crashLogPath os dirPath fileName addTimestamp, closed := false }
      ∧ (Close (Initialize os State.init dirPath fileName addTimestamp).1).2 = none
      ∧ (Close (Initialize os State.init dirPath fileName addTimestamp).1).1.logFile
          = some { name := crashLogPath os dirPath fileName addTimestamp, closed := true }
      ∧ Close (Close (Initialize os State.init dirPath fileName addTimestamp).1).1
          = ((Close (Initialize os State.init dirPath fileName addTimestamp).1).1, none) := by
  have key : (Initialize os State.init dirPath fileName addTimestamp).1.logFile
      = some { name := crashLogPath os dirPath fileName addTimestamp, closed := false } := by
    revert hok
    simp only [Initialize, State.init, initializeAt]
    cases os.openFile (crashLogPath os dirPath fileName addTimestamp) with
    | some e => simp
    | none =>
        cases os.setCrashOutput (crashLogPath os dirPath fileName addTimestamp) with
        | some e => simp
        | none => simp
  refine ⟨rfl, key, ?_, ?_, ?_⟩
  · simp [Close, key]
  · simp [Close, key, File.Close]
  · simp [Close, key, File.Close]

/-- Witness of C3 in an environment where the open and the registration
succeed. -/
theorem Close_before_and_after_Initialize_witness :
    Close State.init = (State.init, none)
      ∧ (Initialize sampleOS State.init "/var/log" "svc" false).1.logFile
          = some { name := crashLogPath sampleOS "/var/log" "svc" false, closed := false }
      ∧ (Close (Initialize sampleOS State.init "/var/log" "svc" false).1).2 = none
      ∧ (Close (Initialize sampleOS State.init "/var/log" "svc" false).1).1.logFile
          = some { name := crashLogPath sampleOS "/var/log" "svc" false, closed := true }
      ∧ Close (Close (Initialize sampleOS State.init "/var/log" "svc" false).1).1
          = ((Close (Initialize sampleOS State.init "/var/log" "svc" false).1).1, none) :=
  Close_before_and_after_Initialize sampleOS "/var/log" "svc" false (by decide)

end crashlog

namespace pkglog

open HandlerOption

/-! ## Theorems on `pkglog`: stack capture and `Handle` -/

theorem collectFrames_length (maxDepth : Int) (frames : List Frame) (stack : List String)
    (h : (stack.length : Int) < maxDepth) :
    ((collectFrames maxDepth frames stack).length : Int) ≤ maxDepth := by
  induction frames generalizing stack with
  | nil =>
      simp only [collectFrames, List.length_append, List.length_singleton]
      push_cast
      omega
  | cons frame rest ih =>
      simp only [collectFrames]
      split
      · simp only [List.length_append, List.length_singleton]
        push_cast
        omega
      · rename_i hc
        apply ih
        simp only [not_or, not_le] at hc
        exact hc.2

theorem getStackTrace_length (env : Env) (skip maxDepth : Int) (st : List String)
    (h : getStackTrace env skip maxDepth = some (some st)) : (st.length : Int) ≤ maxDepth := by
  unfold getStackTrace at h
  split at h
  · exact absurd h (by simp)
  · rename_i hlim
    simp only at h
    split at h
    · exact absurd h (by simp)
    · rename_i hn
      simp only [Option.some.injEq] at h
      subst h
      apply collectFrames_length
      have hle : (Callers env skip maxDepth.toNat).length ≤ maxDepth.toNat := by
        simp only [Callers, List.length_take]
        omega
      simp only [List.length_nil]
      omega

theorem getStackTrace_returns (env : Env) (skip maxDepth : Int)
    (h : 0 ≤ maxDepth ∧ maxDepth ≤ env.makeLimit) :
    ∃ st, getStackTrace env skip maxDepth = some st := by
  unfold getStackTrace
  have hc : ¬ (maxDepth < 0 ∨ (env.makeLimit : Int) < maxDepth) := by omega
  rw [if_neg hc]
  simp only
  split
  · exact ⟨none, rfl⟩
  · exact ⟨_, rfl⟩

theorem Handle_eq (h : Handler) (env : Env) (ctx : Context) (r : Record) (log : WriteLog)
    (d : Delegate) (hd : h.slogHandler = some d) :
    h.Handle env ctx r log
      = ((if r.Level = LevelError then
            (getStackTrace env h.stackTraceSkip h.stackTraceMaxDepth).map
              (fun st => [Attr.mk "stack" (.strings st)])
          else some []).map
          (fun sa =>
            (({ r with attrs := r.attrs
                ++ (if getTraceID ctx = "" then [] else [Attr.mk "traceId" (.string (getTraceID ctx))])
                ++ sa } : Record),
              d.Handle env { r with attrs := r.attrs
                ++ (if getTraceID ctx = "" then [] else [Attr.mk "traceId" (.string (getTraceID ctx))])
                ++ sa } log))) := by
  unfold Handler.Handle
  by_cases ht : getTraceID ctx = "" <;> by_cases hl : r.Level = LevelError
  · cases hs : getStackTrace env h.stackTraceSkip h.stackTraceMaxDepth <;>
      simp [ht, hl, hs, hd, Record.AddAttrs]
  · simp [ht, hl, hd, Record.AddAttrs]
  · cases hs : getStackTrace env h.stackTraceSkip h.stackTraceMaxDepth <;>
      simp [ht, hl, hs, hd, Record.AddAttrs]
  · simp [ht, hl, hd, Record.AddAttrs]

theorem Handle_returns (h : Handler) (env : Env) (ctx : Context) (r : Record) (log : WriteLog)
    (d : Delegate) (hd : h.slogHandler = some d)
    (hdepth : r.Level = LevelError →
      0 ≤ h.stackTraceMaxDepth ∧ h.stackTraceMaxDepth ≤ env.makeLimit) :
    ∃ r2, h.Handle env ctx r log = some (r2, d.Handle env r2 log) := by
  rw [Handle_eq h env ctx r log d hd]
  by_cases hl : r.Level = LevelError
  · obtain ⟨st, hst⟩ := getStackTrace_returns env h.stackTraceSkip h.stackTraceMaxDepth (hdepth hl)
    exact ⟨_, by simp only [hl, if_true, hst, Option.map_some']; rfl⟩
  · exact ⟨_, by simp only [hl, if_false, Option.map_some']; rfl⟩

theorem Handle_returns_record (h : Handler) (env : Env) (ctx : Context) (r : Record)
    (log : WriteLog) (d : Delegate) (hd : h.slogHandler = some d)
    (hdepth : r.Level = LevelError →
      0 ≤ h.stackTraceMaxDepth ∧ h.stackTraceMaxDepth ≤ env.makeLimit) :
    ∃ added, h.Handle env ctx r log
      = some (({ r with attrs := r.attrs ++ added } : Record),
          d.Handle env { r with attrs := r.attrs ++ added } log) := by
  rw [Handle_eq h env ctx r log d hd]
  by_cases hl : r.Level = LevelError
  · obtain ⟨st, hst⟩ := getStackTrace_returns env h.stackTraceSkip h.stackTraceMaxDepth (hdepth hl)
    refine ⟨(if getTraceID ctx = "" then [] else [Attr.mk "traceId" (.string (getTraceID ctx))])
      ++ [Attr.mk "stack" (.strings st)], ?_⟩
    simp only [hl, if_true, hst, Option.map_some', List.append_assoc]
  · refine ⟨(if getTraceID ctx = "" then [] else [Attr.mk "traceId" (.string (getTraceID ctx))]), ?_⟩
    simp only [hl, if_false, Option.map_some', List.append_nil]

/-- A negative depth makes `make([]uintptr, maxDepth)` panic, so `Handle`
panics on an ERROR record and nothing reaches the encoder. -/
theorem Handle_negative_depth_panics :
    (New sampleEnv [HandlerWithStackTrace 4 (-1)]).Handle sampleEnv []
      { Level := LevelError, Message := "m", attrs := [] } [] = none := by
  decide

/-- C4, counterexample: a record one step above ERROR (level 12) goes to the
encoder of a default handler with no `stack` field. -/
theorem Handle_above_error_no_stack :
    LevelError < 12
      ∧ (New sampleEnv []).Handle sampleEnv [] { Level := 12, Message := "m", attrs := [] } []
        = some ({ Level := 12, Message := "m", attrs := [] }, [(Dest.stdout, "m")], none) := by
  decide

/-- C4, amended: when the configured depth can be allocated, `Handle` passes a
record to the encoder; for a record at exactly ERROR the last field of that
record is `stack` with the captured snapshot, and for a record at any other
level, below or above ERROR, every `stack` field of it was on the record
already. -/
theorem Handle_stack_iff_error (h : Handler) (env : Env) (ctx : Context) (r : Record)
    (log : WriteLog) (d : Delegate) (hd : h.slogHandler = some d)
    (hdepth : r.Level = LevelError →
      0 ≤ h.stackTraceMaxDepth ∧ h.stackTraceMaxDepth ≤ env.makeLimit) :
    ∃ r2, h.Handle env ctx r log = some (r2, d.Handle env r2 log)
      ∧ (r.Level = LevelError →
          ∃ st front, getStackTrace env h.stackTraceSkip h.stackTraceMaxDepth = some st
            ∧ r2.attrs = front ++ [Attr.mk "stack" (.strings st)])
      ∧ (r.Level ≠ LevelError → ∀ a ∈ r2.attrs, a.Key = "stack" → a ∈ r.attrs) := by
  rw [Handle_eq h env ctx r log d hd]
  by_cases hl : r.Level = LevelError
  · obtain ⟨st, hst⟩ := getStackTrace_returns env h.stackTraceSkip h.stackTraceMaxDepth (hdepth hl)
    refine ⟨_, by simp only [hl, if_true, hst, Option.map_some']; rfl, ?_, fun hne => absurd hl hne⟩
    intro _
    exact ⟨st, _, hst, rfl⟩
  · refine ⟨_, by simp only [hl, if_false, Option.map_some']; rfl, fun he => absurd he hl, ?_⟩
    intro _ a ha hk
    simp only [List.append_nil, List.mem_append] at ha
    rcases ha with ha | ha
    · exact ha
    · split at ha
      · simp at ha
      · simp only [List.mem_singleton] at ha
        subst ha
        simp at hk

/-- Witness of C4 (amended): an ERROR record through a default handler. -/
theorem Handle_stack_iff_error_witness :
    ∃ r2, (New sampleEnv []).Handle sampleEnv [] { Level := LevelError, Message := "m", attrs := [] } []
        = some (r2, Delegate.Handle
            { encoder := .text, w := .single .stdout,
              opts := some { AddSource := true, Level := .own, ReplaceAttr := .sourceAsFuncLine } }
            sampleEnv r2 [])
      ∧ ((Record.mk LevelError "m" []).Level = LevelError →
          ∃ st front, getStackTrace sampleEnv (New sampleEnv []).stackTraceSkip
              (New sampleEnv []).stackTraceMaxDepth = some st
            ∧ r2.attrs = front ++ [Attr.mk "stack" (.strings st)])
      ∧ ((Record.mk LevelError "m" []).Level ≠ LevelError →
          ∀ a ∈ r2.attrs, a.Key = "stack" → a ∈ (Record.mk LevelError "m" []).attrs) :=
  Handle_stack_iff_error (New sampleEnv []) sampleEnv [] { Level := LevelError, Message := "m", attrs := [] }
    [] _ (by decide) (fun _ => by decide)

/-- C5, counterexample: with depth 0 the capture is nil, and the ERROR record
still reaches the encoder with a `stack` field, holding the nil slice. -/
theorem Handle_empty_stack_attached :
    getStackTrace sampleEnv 4 0 = some none
      ∧ (New sampleEnv [HandlerWithStackTrace 4 0]).Handle sampleEnv []
          { Level := LevelError, Message := "m", attrs := [] } []
        = some ({ Level := LevelError, Message := "m",
                  attrs := [{ Key := "stack", Value := .strings none }] },
                [(Dest.stdout, "m")], none) := by
  decide

/-- C5, amended: when the configured depth can be allocated, `Handle` passes
the record on with some fields appended; every appended `stack` field holds a
list of at most `maxDepth` entries; and on an ERROR record whose capture is
nil the appended fields include `stack` with the nil slice. -/
theorem Handle_stack_length (h : Handler) (env : Env) (ctx : Context) (r : Record)
    (log : WriteLog) (d : Delegate) (hd : h.slogHandler = some d)
    (hdepth : r.Level = LevelError →
      0 ≤ h.stackTraceMaxDepth ∧ h.stackTraceMaxDepth ≤ env.makeLimit) :
    ∃ r2 added, h.Handle env ctx r log = some (r2, d.Handle env r2 log)
      ∧ r2.attrs = r.attrs ++ added
      ∧ (∀ a ∈ added, a.Key = "stack" →
          ∃ st, a.Value = .strings st ∧ (((st.getD []).length : Int) ≤ h.stackTraceMaxDepth))
      ∧ (r.Level = LevelError →
          getStackTrace env h.stackTraceSkip h.stackTraceMaxDepth = some none →
          Attr.mk "stack" (.strings none) ∈ added) := by
  rw [Handle_eq h env ctx r log d hd]
  by_cases hl : r.Level = LevelError
  · obtain ⟨st, hst⟩ := getStackTrace_returns env h.stackTraceSkip h.stackTraceMaxDepth (hdepth hl)
    refine ⟨_, (if getTraceID ctx = "" then [] else [Attr.mk "traceId" (.string (getTraceID ctx))])
      ++ [Attr.mk "stack" (.strings st)],
      by simp only [hl, if_true, hst, Option.map_some']; rfl, by simp, ?_, ?_⟩
    · intro a ha hk
      simp only [List.mem_append, List.mem_singleton] at ha
      rcases ha with ha | ha
      · split at ha
        · simp at ha
        · simp only [List.mem_singleton] at ha
          subst ha
          simp at hk
      · subst ha
        refine ⟨st, rfl, ?_⟩
        cases st with
        | none => simpa using (hdepth hl).1
        | some l => simpa using getStackTrace_length env _ _ l hst
    · intro _ hnil
      rw [hnil] at hst
      simp only [Option.some.injEq] at hst
      subst hst
      simp
  · refine ⟨_, (if getTraceID ctx = "" then [] else [Attr.mk "traceId" (.string (getTraceID ctx))]),
      by simp only [hl, if_false, Option.map_some']; rfl, by simp, ?_, fun he => absurd he hl⟩
    intro a ha hk
    split at ha
    · simp at ha
    · simp only [List.mem_singleton] at ha
      subst ha
      simp at hk

/-- Witness of C5 (amended): an ERROR record through a handler of depth 2. -/
theorem Handle_stack_length_witness :
    ∃ r2 added, (New sampleEnv [HandlerWithStackTrace 0 2]).Handle sampleEnv []
          { Level := LevelError, Message := "m", attrs := [] } []
        = some (r2, Delegate.Handle
            { encoder := .text, w := .single .stdout,
              opts := some { AddSource := true, Level := .own, ReplaceAttr := .sourceAsFuncLine } }
            sampleEnv r2 [])
      ∧ r2.attrs = (Record.mk LevelError "m" []).attrs ++ added
      ∧ (∀ a ∈ added, a.Key = "stack" →
          ∃ st, a.Value = .strings st ∧ (((st.getD []).length : Int)
            ≤ (New sampleEnv [HandlerWithStackTrace 0 2]).stackTraceMaxDepth))
      ∧ ((Record.mk LevelError "m" []).Level = LevelError →
          getStackTrace sampleEnv (New sampleEnv [HandlerWithStackTrace 0 2]).stackTraceSkip
            (New sampleEnv [HandlerWithStackTrace 0 2]).stackTraceMaxDepth = some none →
          Attr.mk "stack" (.strings none) ∈ added) :=
  Handle_stack_length (New sampleEnv [HandlerWithStackTrace 0 2]) sampleEnv []
    { Level := LevelError, Message := "m", attrs := [] } [] _ (by decide) (fun _ => by decide)

/-! ## Theorems on `pkglog`: correlation identifier -/

theorem getTraceID_of_str (ctx : Context) (s : String)
    (h : Context.Value ctx (.str "traceId") = .str s) : getTraceID ctx = s := by
  simp [getTraceID, h]

theorem getTraceID_of_not_str (ctx : Context)
    (h : ∀ s, Context.Value ctx (.str "traceId") ≠ .str s) : getTraceID ctx = "" := by
  unfold getTraceID
  split
  · rename_i t ht
    exact absurd ht (h t)
  · rfl

/-- C6, counterexample: the context carries the string `""` under the key
`traceId`, and the record reaches the encoder with no field at all. -/
theorem Handle_empty_traceId_not_attached :
    Context.Value [(AnyVal.str "traceId", AnyVal.str "")] (.str "traceId") = .str ""
      ∧ (New sampleEnv []).Handle sampleEnv [(AnyVal.str "traceId", AnyVal.str "")]
          { Level := LevelInfo, Message := "m", attrs := [] } []
        = some ({ Level := LevelInfo, Message := "m", attrs := [] }, [(Dest.stdout, "m")], none) := by
  decide

/-- C6, amended: when the configured depth can be allocated, `Handle` passes a
record to the encoder; if the context carries a non-empty string `s` under the
key `traceId`, the first appended field is `traceId` with value `s` and no
other appended field has that key; if the context carries no string there, or
the empty string, no appended field has that key. -/
theorem Handle_traceId (h : Handler) (env : Env) (ctx : Context) (r : Record)
    (log : WriteLog) (d : Delegate) (hd : h.slogHandler = some d)
    (hdepth : r.Level = LevelError →
      0 ≤ h.stackTraceMaxDepth ∧ h.stackTraceMaxDepth ≤ env.makeLimit) :
    ∃ r2, h.Handle env ctx r log = some (r2, d.Handle env r2 log)
      ∧ (∀ s, Context.Value ctx (.str "traceId") = .str s → s ≠ "" →
          ∃ tail, r2.attrs = r.attrs ++ Attr.mk "traceId" (.string s) :: tail
            ∧ ∀ a ∈ tail, a.Key ≠ "traceId")
      ∧ (((∀ s, Context.Value ctx (.str "traceId") ≠ .str s)
            ∨ Context.Value ctx (.str "traceId") = .str "") →
          ∃ tail, r2.attrs = r.attrs ++ tail ∧ ∀ a ∈ tail, a.Key ≠ "traceId") := by
  rw [Handle_eq h env ctx r log d hd]
  have hsa : ∃ sa : List Attr,
      (if r.Level = LevelError then
          (getStackTrace env h.stackTraceSkip h.stackTraceMaxDepth).map
            (fun st => [Attr.mk "stack" (.strings st)])
        else some []) = some sa ∧ ∀ a ∈ sa, a.Key ≠ "traceId" := by
    by_cases hl : r.Level = LevelError
    · obtain ⟨st, hst⟩ := getStackTrace_returns env h.stackTraceSkip h.stackTraceMaxDepth
        (hdepth hl)
      refine ⟨[Attr.mk "stack" (.strings st)], by simp [hl, hst], ?_⟩
      intro a ha
      simp only [List.mem_singleton] at ha
      subst ha
      simp
    · exact ⟨[], by simp [hl], by simp⟩
  obtain ⟨sa, hsa, hkeys⟩ := hsa
  rw [hsa]
  refine ⟨_, rfl, ?_, ?_⟩
  · intro s hs hne
    have ht := getTraceID_of_str ctx s hs
    refine ⟨sa, ?_, hkeys⟩
    simp [ht, hne]
  · intro hc
    have ht : getTraceID ctx = "" := by
      rcases hc with hc | hc
      · exact getTraceID_of_not_str ctx hc
      · exact getTraceID_of_str ctx "" hc
    refine ⟨sa, ?_, hkeys⟩
    simp [ht]

/-- Witness of C6 (amended): identifier `abc123`, INFO record, default
handler. -/
theorem Handle_traceId_witness :
    ∃ r2, (New sampleEnv []).Handle sampleEnv [(AnyVal.str "traceId", AnyVal.str "abc123")]
          { Level := LevelInfo, Message := "m", attrs := [] } []
        = some (r2, Delegate.Handle
            { encoder := .text, w := .single .stdout,
              opts := some { AddSource := true, Level := .own, ReplaceAttr := .sourceAsFuncLine } }
            sampleEnv r2 [])
      ∧ (∀ s, Context.Value [(AnyVal.str "traceId", AnyVal.str "abc123")] (.str "traceId") = .str s →
          s ≠ "" →
          ∃ tail, r2.attrs = (Record.mk LevelInfo "m" []).attrs ++ Attr.mk "traceId" (.string s) :: tail
            ∧ ∀ a ∈ tail, a.Key ≠ "traceId")
      ∧ (((∀ s, Context.Value [(AnyVal.str "traceId", AnyVal.str "abc123")] (.str "traceId") ≠ .str s)
            ∨ Context.Value [(AnyVal.str "traceId", AnyVal.str "abc123")] (.str "traceId") = .str "") →
          ∃ tail, r2.attrs = (Record.mk LevelInfo "m" []).attrs ++ tail
            ∧ ∀ a ∈ tail, a.Key ≠ "traceId") :=
  Handle_traceId (New sampleEnv []) sampleEnv [(AnyVal.str "traceId", AnyVal.str "abc123")]
    { Level := LevelInfo, Message := "m", attrs := [] } [] _ (by decide) (fun hl => absurd hl (by decide))

/-! ## Theorems on `pkglog`: options and `New` -/

theorem applyAll_nil (uni : Char → Char) (h : Handler) : applyAll uni [] h = h := rfl

theorem applyAll_cons (uni : Char → Char) (o : HandlerOption) (os : List HandlerOption)
    (h : Handler) : applyAll uni (o :: os) h = applyAll uni os (o.apply uni h) := rfl

theorem applyAll_append (uni : Char → Char) (a b : List HandlerOption) (h : Handler) :
    applyAll uni (a ++ b) h = applyAll uni b (applyAll uni a h) := by
  simp [applyAll, List.foldl_append]

theorem apply_opts (uni : Char → Char) (o : HandlerOption) (h : Handler)
    (ho : ∀ x, o ≠ HandlerWithHandlerOptions x) : (o.apply uni h).opts = h.opts := by
  cases o with
  | HandlerWithHandlerOptions x => exact absurd rfl (ho x)
  | HandlerWithStrLevel level =>
      simp only [HandlerOption.apply]
      split_ifs <;> rfl
  | _ => rfl

theorem applyAll_opts (uni : Char → Char) (os : List HandlerOption) (h : Handler)
    (ho : ∀ o ∈ os, ∀ x, o ≠ HandlerWithHandlerOptions x) : (applyAll uni os h).opts = h.opts := by
  induction os generalizing h with
  | nil => rfl
  | cons o os ih =>
      rw [applyAll_cons, ih _ (fun o2 h2 => ho o2 (List.mem_cons_of_mem _ h2)),
        apply_opts uni o h (ho o (List.mem_cons_self _ _))]

theorem apply_format (uni : Char → Char) (o : HandlerOption) (h : Handler)
    (ho : ∀ x, o ≠ HandlerWithFormat x) : (o.apply uni h).format = h.format := by
  cases o with
  | HandlerWithFormat x => exact absurd rfl (ho x)
  | HandlerWithStrLevel level =>
      simp only [HandlerOption.apply]
      split_ifs <;> rfl
  | _ => rfl

theorem applyAll_format (uni : Char → Char) (os : List HandlerOption) (h : Handler)
    (ho : ∀ o ∈ os, ∀ x, o ≠ HandlerWithFormat x) : (applyAll uni os h).format = h.format := by
  induction os generalizing h with
  | nil => rfl
  | cons o os ih =>
      rw [applyAll_cons, ih _ (fun o2 h2 => ho o2 (List.mem_cons_of_mem _ h2)),
        apply_format uni o h (ho o (List.mem_cons_self _ _))]

theorem apply_dests (uni : Char → Char) (o : HandlerOption) (h : Handler)
    (ho : ∀ x, o ≠ HandlerWithIoWriter x) :
    ∃ extra, (o.apply uni h).w.dests = h.w.dests ++ extra := by
  cases o with
  | HandlerWithIoWriter x => exact absurd rfl (ho x)
  | HandlerWithStrLevel level =>
      refine ⟨[], ?_⟩
      simp only [HandlerOption.apply]
      split_ifs <;> simp
  | HandlerWithLumberjack sink => exact ⟨[Dest.lumberjack sink], rfl⟩
  | _ => exact ⟨[], by simp [HandlerOption.apply]⟩

theorem applyAll_dests (uni : Char → Char) (os : List HandlerOption) (h : Handler)
    (ho : ∀ o ∈ os, ∀ x, o ≠ HandlerWithIoWriter x) :
    ∃ extra, (applyAll uni os h).w.dests = h.w.dests ++ extra := by
  induction os generalizing h with
  | nil => exact ⟨[], by simp [applyAll_nil]⟩
  | cons o os ih =>
      obtain ⟨e1, h1⟩ := apply_dests uni o h (ho o (List.mem_cons_self _ _))
      obtain ⟨e2, h2⟩ := ih (o.apply uni h) (fun o2 hm => ho o2 (List.mem_cons_of_mem _ hm))
      exact ⟨e1 ++ e2, by rw [applyAll_cons, h2, h1, List.append_assoc]⟩

theorem writeAll_all_accept (accepts : Dest → String → Bool) (ds : List Dest) (p : String)
    (log : WriteLog) (h : ∀ d ∈ ds, accepts d p = true) :
    writeAll accepts ds p log = (log ++ ds.map (fun d => (d, p)), none) := by
  induction ds generalizing log with
  | nil => simp [writeAll]
  | cons d ds ih =>
      simp only [writeAll, h d (List.mem_cons_self _ _), if_true]
      rw [ih _ (fun d2 hm => h d2 (List.mem_cons_of_mem _ hm))]
      simp

theorem New_slogHandler (env : Env) (opts : List HandlerOption) :
    ∃ e, (New env opts).slogHandler
      = some { encoder := e, w := (applyAll env.uni opts defaultHandler).w,
               opts := (applyAll env.uni opts defaultHandler).opts } :=
  ⟨_, rfl⟩

/-! ## Theorems on `pkglog`: severity threshold -/

/-- After `SetLevel(WARN)` on a default handler an ERROR record is written to
standard output with its stack field, and an INFO record leaves the log as it
was. -/
theorem loggerLog_after_SetLevel_example :
    loggerLog ((New sampleEnv []).SetLevel LevelWarn) sampleEnv []
        { Level := LevelError, Message := "m", attrs := [] } []
      = .handled { Level := LevelError, Message := "m",
                   attrs := [{ Key := "stack", Value := .strings none }] }
          [(Dest.stdout, "m")] none
      ∧ (loggerLog ((New sampleEnv []).SetLevel LevelWarn) sampleEnv []
          { Level := LevelInfo, Message := "m", attrs := [] } []).logAfter [] = [] := by
  decide

/-- C7, counterexample: built with `HandlerWithHandlerOptions(nil)`, the
encoder compares with Info whatever the handler's level variable holds, so
after `SetLevel(WARN)` an INFO record is still enabled and written. -/
theorem SetLevel_ignored_after_HandlerOptions :
    ((New sampleEnv [HandlerWithHandlerOptions none]).SetLevel LevelWarn).Enabled sampleEnv LevelInfo
        = some true
      ∧ loggerLog ((New sampleEnv [HandlerWithHandlerOptions none]).SetLevel LevelWarn) sampleEnv []
          { Level := LevelInfo, Message := "m", attrs := [] } []
        = .handled { Level := LevelInfo, Message := "m", attrs := [] } [(Dest.stdout, "m")] none := by
  decide

theorem New_slogHandler_eq (env : Env) (opts : List HandlerOption) :
    (New env opts).slogHandler
      = some { encoder := if ToUpper env.uni (New env opts).format = "JSON" then Encoder.json
                          else Encoder.text,
               w := (New env opts).w, opts := (New env opts).opts } := by
  simp only [New, ite_self]

/-- C7, amended: for a handler built by `New` from options none of which is
`HandlerWithHandlerOptions`, after `SetLevel(l)` a level is enabled exactly
when it is at least `l`; a record below `l` is dropped and the write log
stays as it was; a record at or above `l` produces output: with some fields
appended it is encoded by the handler's encoder, and those bytes are written
once to every destination of the handler's writer, provided the destinations
accept writes and, for an ERROR record, the configured stack depth can be
allocated. -/
theorem SetLevel_takes_effect (env : Env) (opts : List HandlerOption)
    (hopts : ∀ o ∈ opts, ∀ x, o ≠ HandlerWithHandlerOptions x) (l : Int) :
    (∀ x, ((New env opts).SetLevel l).Enabled env x = some (decide (l ≤ x)))
      ∧ (∀ ctx r log, r.Level < l →
          loggerLog ((New env opts).SetLevel l) env ctx r log = .dropped
            ∧ (loggerLog ((New env opts).SetLevel l) env ctx r log).logAfter log = log)
      ∧ (∀ ctx r log, l ≤ r.Level →
          (r.Level = LevelError → 0 ≤ (New env opts).stackTraceMaxDepth
            ∧ (New env opts).stackTraceMaxDepth ≤ env.makeLimit) →
          (∀ d ∈ (New env opts).w.dests, ∀ p, env.accepts d p = true) →
          ∃ added, loggerLog ((New env opts).SetLevel l) env ctx r log
            = .handled { r with attrs := r.attrs ++ added }
                (log ++ (New env opts).w.dests.map (fun d => (d,
                  env.encode
                    (if ToUpper env.uni (New env opts).format = "JSON" then Encoder.json
                      else Encoder.text)
                    { AddSource := true, Level := .own, ReplaceAttr := .sourceAsFuncLine }
                    { r with attrs := r.attrs ++ added })))
                none) := by
  have he := New_slogHandler_eq env opts
  have ho : (New env opts).opts
      = some { AddSource := true, Level := .own, ReplaceAttr := .sourceAsFuncLine } :=
    applyAll_opts env.uni opts defaultHandler hopts
  rw [ho] at he
  have hen : ∀ x, ((New env opts).SetLevel l).Enabled env x = some (decide (l ≤ x)) := by
    intro x
    simp [Handler.Enabled, Handler.SetLevel, he, Delegate.Enabled]
  refine ⟨hen, ?_, ?_⟩
  · intro ctx r log hlt
    have : ¬ l ≤ r.Level := by omega
    simp [loggerLog, hen, this, Outcome.logAfter]
  · intro ctx r log hle hdepth hacc
    have hd : ((New env opts).SetLevel l).slogHandler = some
        { encoder := if ToUpper env.uni (New env opts).format = "JSON" then Encoder.json
                      else Encoder.text,
          w := (New env opts).w,
          opts := some { AddSource := true, Level := .own, ReplaceAttr := .sourceAsFuncLine } } := he
    obtain ⟨added, hr2⟩ := Handle_returns_record ((New env opts).SetLevel l) env ctx r log _ hd hdepth
    refine ⟨added, ?_⟩
    simp only [loggerLog, hen, hle, decide_True, hr2, Delegate.Handle, Writer.Write,
      Option.getD_some]
    rw [writeAll_all_accept env.accepts _ _ log (fun d hdm => hacc d hdm _)]

/-- Witness of C7 (amended): `SetLevel(WARN)` on a handler built with the
JSON format option, writing to standard output. -/
theorem SetLevel_takes_effect_witness :
    (∀ x, ((New sampleEnv [HandlerWithFormat "json"]).SetLevel LevelWarn).Enabled sampleEnv x
        = some (decide (LevelWarn ≤ x)))
      ∧ (∀ ctx r log, r.Level < LevelWarn →
          loggerLog ((New sampleEnv [HandlerWithFormat "json"]).SetLevel LevelWarn) sampleEnv ctx r log
              = .dropped
            ∧ (loggerLog ((New sampleEnv [HandlerWithFormat "json"]).SetLevel LevelWarn) sampleEnv
                ctx r log).logAfter log = log)
      ∧ (∀ ctx r log, LevelWarn ≤ r.Level →
          (r.Level = LevelError → 0 ≤ (New sampleEnv [HandlerWithFormat "json"]).stackTraceMaxDepth
            ∧ (New sampleEnv [HandlerWithFormat "json"]).stackTraceMaxDepth ≤ sampleEnv.makeLimit) →
          (∀ d ∈ (New sampleEnv [HandlerWithFormat "json"]).w.dests, ∀ p,
            sampleEnv.accepts d p = true) →
          ∃ added,
            loggerLog ((New sampleEnv [HandlerWithFormat "json"]).SetLevel LevelWarn) sampleEnv ctx r log
              = .handled { r with attrs := r.attrs ++ added }
                  (log ++ (New sampleEnv [HandlerWithFormat "json"]).w.dests.map (fun d => (d,
                    sampleEnv.encode
                      (if ToUpper sampleEnv.uni (New sampleEnv [HandlerWithFormat "json"]).format
                          = "JSON" then Encoder.json else Encoder.text)
                      { AddSource := true, Level := .own, ReplaceAttr := .sourceAsFuncLine }
                      { r with attrs := r.attrs ++ added })))
                  none) :=
  SetLevel_takes_effect sampleEnv [HandlerWithFormat "json"]
    (fun o ho x => by
      simp only [List.mem_singleton] at ho
      subst ho
      simp)
    LevelWarn

/-! ## Theorems on `pkglog`: writers -/

/-- C8, counterexample: with the sink option first and the writer option
after it, the handler is built on the plain writer, and a write that every
destination accepts reaches that writer only. -/
theorem Lumberjack_dropped_by_later_IoWriter :
    (New sampleEnv [HandlerWithLumberjack 0, HandlerWithIoWriter (.single (.user 0))]).slogHandler
        = some { encoder := .text, w := .single (.user 0),
                 opts := some { AddSource := true, Level := .own, ReplaceAttr := .sourceAsFuncLine } }
      ∧ Writer.Write sampleEnv.accepts (.single (.user 0)) "line" []
        = ([(Dest.user 0, "line")], none)
      ∧ (Dest.lumberjack 0, "line") ∉
          (Writer.Write sampleEnv.accepts (.single (.user 0)) "line" []).1 := by
  decide

/-- C8, amended: when no `HandlerWithIoWriter` comes after
`HandlerWithLumberjack(sink)` in the option list, the handler is built on a
writer that, for a write all its destinations accept, delivers the bytes to
every destination of the writer in effect before the sink option (standard
output, or the writer of the last `HandlerWithIoWriter` before it) and to the
sink, and reports no error. -/
theorem Lumberjack_fans_out (env : Env) (before after : List HandlerOption) (sink : Nat)
    (p : String) (log : WriteLog)
    (hafter : ∀ o ∈ after, ∀ w, o ≠ HandlerWithIoWriter w)
    (hacc : ∀ d ∈ (applyAll env.uni (before ++ HandlerWithLumberjack sink :: after)
        defaultHandler).w.dests, env.accepts d p = true) :
    ∃ dl, (New env (before ++ HandlerWithLumberjack sink :: after)).slogHandler = some dl
      ∧ (∀ d ∈ (applyAll env.uni before defaultHandler).w.dests,
          (d, p) ∈ (dl.w.Write env.accepts p log).1)
      ∧ (Dest.lumberjack sink, p) ∈ (dl.w.Write env.accepts p log).1
      ∧ (dl.w.Write env.accepts p log).2 = none := by
  obtain ⟨e, he⟩ := New_slogHandler env (before ++ HandlerWithLumberjack sink :: after)
  refine ⟨_, he, ?_⟩
  obtain ⟨extra, hx⟩ := applyAll_dests env.uni after
    ((HandlerWithLumberjack sink).apply env.uni (applyAll env.uni before defaultHandler)) hafter
  have hds : (applyAll env.uni (before ++ HandlerWithLumberjack sink :: after) defaultHandler).w.dests
      = (applyAll env.uni before defaultHandler).w.dests ++ [Dest.lumberjack sink] ++ extra := by
    rw [applyAll_append, applyAll_cons, hx]
    rfl
  simp only [Writer.Write]
  rw [writeAll_all_accept env.accepts _ p log hacc, hds]
  refine ⟨?_, ?_, rfl⟩
  · intro d hd
    simp only [List.map_append, List.mem_append, List.mem_map]
    exact Or.inr (Or.inl (Or.inl ⟨d, hd, rfl⟩))
  · simp

/-- Witness of C8 (amended): writer option, then sink option, then a level
option. -/
theorem Lumberjack_fans_out_witness :
    ∃ dl, (New sampleEnv ([HandlerWithIoWriter (.single (.user 0))]
          ++ HandlerWithLumberjack 0 :: [HandlerWithLevel LevelDebug])).slogHandler = some dl
      ∧ (∀ d ∈ (applyAll sampleEnv.uni [HandlerWithIoWriter (.single (.user 0))]
            defaultHandler).w.dests,
          (d, "line") ∈ (dl.w.Write sampleEnv.accepts "line" []).1)
      ∧ (Dest.lumberjack 0, "line") ∈ (dl.w.Write sampleEnv.accepts "line" []).1
      ∧ (dl.w.Write sampleEnv.accepts "line" []).2 = none :=
  Lumberjack_fans_out sampleEnv [HandlerWithIoWriter (.single (.user 0))]
    [HandlerWithLevel LevelDebug] 0 "line" []
    (fun o ho w => by
      simp only [List.mem_singleton] at ho
      subst ho
      simp)
    (fun _ _ => rfl)

/-! ## Theorems on `pkglog`: format and string level -/

theorem ToUpper_ascii (uni : Char → Char) (s : String)
    (h : s.data.all (fun c => c.toNat < 128) = true) :
    ToUpper uni s = String.mk (s.data.map Char.toUpper) := by
  simp only [ToUpper, h, if_true]

theorem New_encoder_of_format (env : Env) (opts : List HandlerOption) :
    (New env opts).slogHandler.map Delegate.encoder
      = some (if ToUpper env.uni (applyAll env.uni opts defaultHandler).format = "JSON"
          then Encoder.json else Encoder.text) := by
  simp only [New, Option.map_some', ite_self]

/-- C9: with `HandlerWithFormat(f)` the last format option of the list, `New`
builds on the JSON encoder when the upper-casing of `f` is `JSON` and on the
text encoder otherwise; without a format option it builds on the text
encoder; all sixteen spellings of `json` in mixed case upper-case to `JSON`,
while `unknown`, the empty string and spellings of `text` do not; and the
handler built with format `unknown` has the same encoder, writer and options
as the default one. -/
theorem New_format_selection (env : Env) (before after : List HandlerOption) (f : String)
    (hafter : ∀ o ∈ after, ∀ g, o ≠ HandlerWithFormat g) :
    (ToUpper env.uni f = "JSON" →
        (New env (before ++ HandlerWithFormat f :: after)).slogHandler.map Delegate.encoder
          = some Encoder.json)
      ∧ (ToUpper env.uni f ≠ "JSON" →
        (New env (before ++ HandlerWithFormat f :: after)).slogHandler.map Delegate.encoder
          = some Encoder.text)
      ∧ (∀ opts : List HandlerOption, (∀ o ∈ opts, ∀ g, o ≠ HandlerWithFormat g) →
        (New env opts).slogHandler.map Delegate.encoder = some Encoder.text)
      ∧ (∀ v ∈ ["json", "jsoN", "jsOn", "jsON", "jSon", "jSoN", "jSOn", "jSON",
                "Json", "JsoN", "JsOn", "JsON", "JSon", "JSoN", "JSOn", "JSON"],
          ToUpper env.uni v = "JSON")
      ∧ (∀ v ∈ ["unknown", "", "text", "Text", "TEXT"], ToUpper env.uni v ≠ "JSON")
      ∧ (New env [HandlerWithFormat "unknown"]).slogHandler = (New env []).slogHandler := by
  have hfmt : (applyAll env.uni (before ++ HandlerWithFormat f :: after) defaultHandler).format
      = f := by
    rw [applyAll_append, applyAll_cons, applyAll_format env.uni after _ hafter]
    rfl
  have hunknown : ToUpper env.uni "unknown" ≠ "JSON" := by
    rw [ToUpper_ascii _ _ (by decide)]
    decide
  have hempty : ToUpper env.uni "" ≠ "JSON" := by
    rw [ToUpper_ascii _ _ (by decide)]
    decide
  refine ⟨?_, ?_, ?_, ?_, ?_, ?_⟩
  · intro hu
    rw [New_encoder_of_format, hfmt, if_pos hu]
  · intro hu
    rw [New_encoder_of_format, hfmt, if_neg hu]
  · intro opts hno
    rw [New_encoder_of_format, applyAll_format env.uni opts _ hno]
    exact congrArg some (if_neg hempty)
  · intro v hv
    simp only [List.mem_cons, List.mem_singleton, List.not_mem_nil, or_false] at hv
    rcases hv with h | h | h | h | h | h | h | h | h | h | h | h | h | h | h | h <;>
      subst h <;> rw [ToUpper_ascii _ _ (by decide)] <;> decide
  · intro v hv
    simp only [List.mem_cons, List.mem_singleton, List.not_mem_nil, or_false] at hv
    rcases hv with h | h | h | h | h <;>
      subst h <;> rw [ToUpper_ascii _ _ (by decide)] <;> decide
  · have h1 : (New env [HandlerWithFormat "unknown"]).slogHandler
        = some { encoder := if ToUpper env.uni "unknown" = "JSON" then Encoder.json else Encoder.text,
                 w := .single .stdout,
                 opts := some { AddSource := true, Level := .own, ReplaceAttr := .sourceAsFuncLine } } := by
      simp only [New, ite_self]
      rfl
    have h2 : (New env []).slogHandler
        = some { encoder := if ToUpper env.uni "" = "JSON" then Encoder.json else Encoder.text,
                 w := .single .stdout,
                 opts := some { AddSource := true, Level := .own, ReplaceAttr := .sourceAsFuncLine } } := by
      simp only [New, ite_self]
      rfl
    rw [h1, h2, if_neg hunknown, if_neg hempty]

/-- Witness of C9: format `Json` between a level option and a stack option. -/
theorem New_format_selection_witness :
    (ToUpper sampleEnv.uni "Json" = "JSON" →
        (New sampleEnv ([HandlerWithLevel LevelDebug] ++ HandlerWithFormat "Json"
          :: [HandlerWithStackTrace 4 3])).slogHandler.map Delegate.encoder = some Encoder.json)
      ∧ (ToUpper sampleEnv.uni "Json" ≠ "JSON" →
        (New sampleEnv ([HandlerWithLevel LevelDebug] ++ HandlerWithFormat "Json"
          :: [HandlerWithStackTrace 4 3])).slogHandler.map Delegate.encoder = some Encoder.text)
      ∧ (∀ opts : List HandlerOption, (∀ o ∈ opts, ∀ g, o ≠ HandlerWithFormat g) →
        (New sampleEnv opts).slogHandler.map Delegate.encoder = some Encoder.text)
      ∧ (∀ v ∈ ["json", "jsoN", "jsOn", "jsON", "jSon", "jSoN", "jSOn", "jSON",
                "Json", "JsoN", "JsOn", "JsON", "JSon", "JSoN", "JSOn", "JSON"],
          ToUpper sampleEnv.uni v = "JSON")
      ∧ (∀ v ∈ ["unknown", "", "text", "Text", "TEXT"], ToUpper sampleEnv.uni v ≠ "JSON")
      ∧ (New sampleEnv [HandlerWithFormat "unknown"]).slogHandler = (New sampleEnv []).slogHandler :=
  New_format_selection sampleEnv [HandlerWithLevel LevelDebug] [HandlerWithStackTrace 4 3] "Json"
    (fun o ho g => by
      simp only [List.mem_singleton] at ho
      subst ho
      simp)

/-- C10: `HandlerWithStrLevel(s)` sets the level from the upper-casing of `s`:
`DEBUG` gives Debug, `INFO` Info, `WARN` and `WARNING` Warn, `ERROR` Error and
anything else Info; the level it leaves is always one of the four; lower-case
and mixed-case spellings upper-case to the recognised names; and the option
is a total function with no error result. -/
theorem HandlerWithStrLevel_sets_level (uni : Char → Char) (s : String) (h : Handler) :
    (ToUpper uni s = "DEBUG" → ((HandlerWithStrLevel s).apply uni h).level = LevelDebug)
      ∧ (ToUpper uni s = "INFO" → ((HandlerWithStrLevel s).apply uni h).level = LevelInfo)
      ∧ (ToUpper uni s = "WARN" → ((HandlerWithStrLevel s).apply uni h).level = LevelWarn)
      ∧ (ToUpper uni s = "WARNING" → ((HandlerWithStrLevel s).apply uni h).level = LevelWarn)
      ∧ (ToUpper uni s = "ERROR" → ((HandlerWithStrLevel s).apply uni h).level = LevelError)
      ∧ (ToUpper uni s ∉ ["DEBUG", "INFO", "WARN", "WARNING", "ERROR"] →
          ((HandlerWithStrLevel s).apply uni h).level = LevelInfo)
      ∧ ((HandlerWithStrLevel s).apply uni h).level ∈ [LevelDebug, LevelInfo, LevelWarn, LevelError]
      ∧ (ToUpper uni "debug" = "DEBUG" ∧ ToUpper uni "Info" = "INFO" ∧ ToUpper uni "warn" = "WARN"
          ∧ ToUpper uni "Warning" = "WARNING" ∧ ToUpper uni "eRRoR" = "ERROR") := by
  refine ⟨?_, ?_, ?_, ?_, ?_, ?_, ?_, ?_⟩
  · intro hu
    simp [HandlerOption.apply, hu]
  · intro hu
    simp [HandlerOption.apply, hu]
  · intro hu
    simp [HandlerOption.apply, hu]
  · intro hu
    simp [HandlerOption.apply, hu]
  · intro hu
    simp [HandlerOption.apply, hu]
  · intro hu
    simp only [List.mem_cons, List.mem_singleton, List.not_mem_nil, or_false, not_or] at hu
    obtain ⟨h1, h2, h3, h4, h5⟩ := hu
    simp [HandlerOption.apply, h1, h2, h3, h4, h5]
  · simp only [HandlerOption.apply]
    split_ifs <;> simp
  · refine ⟨?_, ?_, ?_, ?_, ?_⟩ <;> rw [ToUpper_ascii _ _ (by decide)] <;> decide

/-- Witness of C10: the string `Warning` on the default handler. -/
theorem HandlerWithStrLevel_sets_level_witness :
    ((HandlerWithStrLevel "Warning").apply Char.toUpper defaultHandler).level = LevelWarn :=
  (HandlerWithStrLevel_sets_level Char.toUpper "Warning" defaultHandler).2.2.2.1 (by decide)

end pkglog
